import Mathlib

/-!
Shallow embedding of the sensu-go storage-wrapper subsystem.

Source material:
  * the `wrap` package (Wrapper, Encoding, Compression, functional options,
    `wrap` / `wrapWithoutValidation`, `Unwrap` / `UnwrapRaw` / `UnwrapInto`,
    and `List.UnwrapInto`), and
  * `backend/apid/handlers/patch.go` (`PatchResource` content-type dispatch
    and `validatePatch`).

Modelling conventions:
  * Go `[]byte` values produced by codecs are modelled symbolically by the
    inductive `Bytes`: `json.Marshal r` is `Bytes.jsonEnc r`, `proto.Marshal r`
    is `Bytes.protoEnc r`, and a snappy frame around `m` is
    `Bytes.snappyFrame m`. Decoding pattern-matches on the constructor, which
    mirrors the fact that each codec only accepts its own framing.
  * Go interface capabilities (`proto.Message`, `validatable`,
    `corev3.Resource`) become boolean capability flags carried by `Resource`;
    the data fields of a resource are gathered in `ResourceData`, and decoding
    into a target replaces the target's data while keeping its type-level
    capabilities, as `json.Unmarshal`/`proto.Unmarshal` do in Go.
  * `time.Time` is a `Nat` (`0` is the zero value, `IsZero`), and the
    discarded-error `MarshalText` call is the total function `timeText`.
  * Go maps `map[string]string` are association lists without duplicate-key
    creation: `updateKV` overwrites in place or appends, like `m[k] = v`.
  * `apitools.Resolve` is a lookup in an explicit `Registry` associating a
    `TypeMeta` with the zero-value instance the factory would produce.
-/

namespace SensuWrap

/-- `corev2.TypeMeta`: the type identity of a resource. -/
structure TypeMeta where
  type : String
  apiVersion : String
deriving DecidableEq, Repr

/-- `corev2.ObjectMeta`, restricted to the fields this subsystem reads and
writes. `ns` models the Go field `Namespace` (`namespace` is reserved in
Lean). `labels` / `annotations` are `Option` to keep Go's nil-map versus
empty-map distinction. -/
structure ObjectMeta where
  ns : String
  name : String
  labels : Option (List (String × String))
  annotations : Option (List (String × String))
deriving DecidableEq, Repr

/-- The zero value `corev2.ObjectMeta{}` (all maps nil). -/
def ObjectMeta.empty : ObjectMeta := ⟨"", "", none, none⟩

/-- Go map read `m[k]`: first binding of `k` in the association list. -/
def lookupKV : List (String × String) → String → Option String
  | [], _ => none
  | (k2, v) :: rest, k => if k2 = k then some v else lookupKV rest k

/-- Go map write `m[k] = v`: overwrite the binding in place, or append. -/
def updateKV : List (String × String) → String → String → List (String × String)
  | [], k, v => [(k, v)]
  | (k2, v2) :: rest, k, v =>
    if k2 = k then (k, v) :: rest else (k2, v2) :: updateKV rest k v

/-- The data fields of a resource: its metadata pointer (nil-able), the rest
of its payload (abstracted to a `Nat`), and the outcome its `Validate()`
method would report on this data (`none` = valid). -/
structure ResourceData where
  meta : Option ObjectMeta
  payload : Nat
  validateErr : Option String
deriving DecidableEq, Repr

/-- A typed resource value. The boolean flags are the type-level interface
capabilities: `isProto` (`proto.Message`), `hasValidate` (`validatable`),
`isV3` (`corev3.Resource`, i.e. has Get/SetMetadata). `tm` is the type
identity the resource reports (via `tmGetter` or the reflective fallback,
which both yield a fixed `TypeMeta` per concrete type). -/
structure Resource where
  tm : TypeMeta
  isProto : Bool
  hasValidate : Bool
  isV3 : Bool
  data : ResourceData
deriving DecidableEq, Repr

/-- Symbolic byte strings, see the module docstring. `raw` stands for any
byte string that is not a codec output (e.g. the initial nil `Value`). -/
inductive Bytes where
  | raw (tag : Nat)
  | jsonEnc (r : Resource)
  | protoEnc (r : Resource)
  | snappyFrame (b : Bytes)
deriving DecidableEq, Repr

/-- `Encoding` is `int32` in Go; values other than 0 and 1 are representable. -/
abbrev Encoding := Int

def Encoding_json : Encoding := 0
def Encoding_protobuf : Encoding := 1

/-- `Encoding.String()` via the `Encoding_name` map (missing key yields ""). -/
def Encoding.str (e : Encoding) : String :=
  if e = 0 then "json" else if e = 1 then "protobuf" else ""

/-- `Compression` is `int32` in Go; values other than 0 and 1 are representable. -/
abbrev Compression := Int

def Compression_none : Compression := 0
def Compression_snappy : Compression := 1

/-- `Compression.String()` via the `Compression_name` map (missing key yields ""). -/
def Compression.str (c : Compression) : String :=
  if c = 0 then "none" else if c = 1 then "snappy" else ""

/-- Decoding into a Go target overwrites the target's data fields but cannot
change its dynamic type, hence the capability flags and `tm` stay the
target's. -/
def hydrateInto (target : Resource) (src : ResourceData) : Resource :=
  { target with data := src }

/-- `Encoding.Encode`: json always succeeds; protobuf requires the
`proto.Message` capability; any other tag is an invalid encoding. -/
def Encoding.Encode (e : Encoding) (r : Resource) : Except String Bytes :=
  if e = Encoding_json then .ok (.jsonEnc r)
  else if e = Encoding_protobuf then
    if r.isProto then .ok (.protoEnc r)
    else .error "protobuf encoding requested, but value is not a proto.Message"
  else .error ("invalid encoding: " ++ Encoding.str e)

/-- `Encoding.Decode`: json accepts exactly json frames; protobuf requires a
`proto.Message` target and a protobuf frame; other tags are invalid. -/
def Encoding.Decode (e : Encoding) (m : Bytes) (target : Resource) :
    Except String Resource :=
  if e = Encoding_json then
    match m with
    | .jsonEnc r => .ok (hydrateInto target r.data)
    | _ => .error "invalid character: json unmarshal error"
  else if e = Encoding_protobuf then
    if target.isProto then
      match m with
      | .protoEnc r => .ok (hydrateInto target r.data)
      | _ => .error "proto: cannot parse invalid wire-format data"
    else .error "protobuf decoding requested, but target is not a proto.Message"
  else .error ("invalid encoding: " ++ Encoding.str e)

/-- `Compression.Compress`: total; `none` and any unknown tag return the
input unchanged (the Go switch falls through to `return m`), `snappy` wraps
the bytes in a snappy frame. -/
def Compression.Compress (c : Compression) (m : Bytes) : Bytes :=
  if c = Compression_none then m
  else if c = Compression_snappy then .snappyFrame m
  else m

/-- `Compression.Decompress`: `none` is the identity; `snappy` requires a
valid snappy frame; any other tag is an invalid compression. -/
def Compression.Decompress (c : Compression) (m : Bytes) : Except String Bytes :=
  if c = Compression_none then .ok m
  else if c = Compression_snappy then
    match m with
    | .snappyFrame b => .ok b
    | _ => .error "snappy: corrupt input"
  else .error ("invalid compression: " ++ Compression.str c)

/-- Go `time.Time` modelled as a `Nat`; `0` is the zero value. -/
abbrev Time := Nat

/-- The textual form `MarshalText` produces (its error is discarded in the
source, here the function is total). -/
def timeText (t : Time) : String := toString t

/-- The `Wrapper` struct. `TypeMeta` is a pointer in Go but is always set by
the wrap path, so it is kept non-optional here. -/
structure Wrapper where
  typeMeta : TypeMeta
  encoding : Encoding
  compression : Compression
  value : Bytes
  createdAt : Time
  updatedAt : Time
  deletedAt : Time
  etag : String
deriving DecidableEq, Repr

/-- Reserved storage-metadata keys from `backend/store` (the exact strings
are opaque constants outside the sampled sources; only their distinctness
matters). -/
def sensuCreatedAtKey : String := "sensu.io/managed_by/created_at"

def sensuUpdatedAtKey : String := "sensu.io/managed_by/updated_at"

def sensuDeletedAtKey : String := "sensu.io/managed_by/deleted_at"

def sensuETagKey : String := "sensu.io/etag"

/-- The reserved keys injected during hydration. -/
def reservedKeys : List String :=
  [sensuCreatedAtKey, sensuUpdatedAtKey, sensuDeletedAtKey, sensuETagKey]

/-- `ErrValidateMethodMissing`. -/
def ErrValidateMethodMissing : String :=
  "resource is missing required Validate() method"

/-- A functional option (`wrap.Option`), modelled as a state transformer on
the wrapper under construction. -/
def WrapOption := Wrapper → Resource → Except String Wrapper

/-- `EncodeProtobuf`: errors unless the resource is a `proto.Message`. -/
def EncodeProtobuf : WrapOption := fun w r =>
  if r.isProto then .ok { w with encoding := Encoding_protobuf }
  else .error "protobuf encoding requested, but value is not a proto.Message"

/-- `EncodeJSON`. -/
def EncodeJSON : WrapOption := fun w _ =>
  .ok { w with encoding := Encoding_json }

/-- `EncodeDefault`: protobuf when the resource is a `proto.Message`,
otherwise json. -/
def EncodeDefault : WrapOption := fun w r =>
  .ok { w with encoding := if r.isProto then Encoding_protobuf else Encoding_json }

/-- `CompressNone`. -/
def CompressNone : WrapOption := fun w _ =>
  .ok { w with compression := Compression_none }

/-- `CompressSnappy`. -/
def CompressSnappy : WrapOption := fun w _ =>
  .ok { w with compression := Compression_snappy }

/-- `CompressDefault = CompressSnappy`. -/
def CompressDefault : WrapOption := CompressSnappy

/-- Apply options in order, stopping at the first error (the loop in
`wrapWithoutValidation`). -/
def applyOpts : List WrapOption → Wrapper → Resource → Except String Wrapper
  | [], w, _ => .ok w
  | o :: os, w, r =>
    match o w r with
    | .error e => .error e
    | .ok w2 => applyOpts os w2 r

/-- The zero-value wrapper `Wrapper{TypeMeta: &tm}` built at the start of
`wrapWithoutValidation`. -/
def initWrapper (tm : TypeMeta) : Wrapper :=
  { typeMeta := tm, encoding := 0, compression := 0, value := .raw 0
    createdAt := 0, updatedAt := 0, deletedAt := 0, etag := "" }

/-- `wrapWithoutValidation`: build the wrapper, apply `EncodeDefault` and
`CompressDefault` followed by the caller's options, then encode and
compress. (The `V2ResourceProxy` indirection is outside this model; `tm`
comes from the resource whether via `tmGetter` or the reflective fallback.) -/
def wrapWithoutValidation (r : Resource) (opts : List WrapOption) :
    Except String Wrapper :=
  match applyOpts (EncodeDefault :: CompressDefault :: opts) (initWrapper r.tm) r with
  | .error e => .error e
  | .ok w =>
    match Encoding.Encode w.encoding r with
    | .error e => .error e
    | .ok message => .ok { w with value := Compression.Compress w.compression message }

/-- `wrap`: run `Validate()` when the resource has it (failure is returned
as-is); a resource without the capability fails with
`ErrValidateMethodMissing`. -/
def wrap (r : Resource) (opts : List WrapOption) : Except String Wrapper :=
  if r.hasValidate then
    match r.data.validateErr with
    | some e => .error e
    | none => wrapWithoutValidation r opts
  else .error ErrValidateMethodMissing

/-- The type registry backing `apitools.Resolve`. -/
def Registry := List (TypeMeta × Resource)

/-- `apitools.Resolve`: produce the registered zero-value instance for a type
identity, or a not-found error. -/
def resolve (reg : Registry) (tm : TypeMeta) : Except String Resource :=
  match List.find? (fun p => p.1 = tm) reg with
  | some p => .ok p.2
  | none => .error ("type could not be found: " ++ tm.type)

/-- The metadata stamping performed by `Wrapper.Unwrap` on a (materialized)
metadata value: ensure the maps exist, inject the created-at and updated-at
labels and the etag annotation, and the deleted-at label when the tombstone
is set. -/
def stampMeta (w : Wrapper) (meta : ObjectMeta) : ObjectMeta :=
  let labels0 := meta.labels.getD []
  let annots0 := meta.annotations.getD []
  let labels1 := updateKV labels0 sensuCreatedAtKey (timeText w.createdAt)
  let labels2 := updateKV labels1 sensuUpdatedAtKey (timeText w.updatedAt)
  let annots1 := updateKV annots0 sensuETagKey w.etag
  let labels3 :=
    if w.deletedAt ≠ 0 then updateKV labels2 sensuDeletedAtKey (timeText w.deletedAt)
    else labels2
  { meta with labels := some labels3, annotations := some annots1 }

/-- The metadata stamping performed by `Wrapper.UnwrapInto`: like `stampMeta`
it materializes the maps and injects the created-at / updated-at labels and
the deleted-at label when tombstoned, but it never writes the etag
annotation. -/
def stampMetaInto (w : Wrapper) (meta : ObjectMeta) : ObjectMeta :=
  let labels0 := meta.labels.getD []
  let annots0 := meta.annotations.getD []
  let labels1 := updateKV labels0 sensuCreatedAtKey (timeText w.createdAt)
  let labels2 := updateKV labels1 sensuUpdatedAtKey (timeText w.updatedAt)
  let labels3 :=
    if w.deletedAt ≠ 0 then updateKV labels2 sensuDeletedAtKey (timeText w.deletedAt)
    else labels2
  { meta with labels := some labels3, annotations := some annots0 }

/-- `Wrapper.UnwrapRaw`: resolve the registered instance, decompress, decode. -/
def Wrapper.UnwrapRaw (reg : Registry) (w : Wrapper) : Except String Resource :=
  match resolve reg w.typeMeta with
  | .error e => .error e
  | .ok resource =>
    match Compression.Decompress w.compression w.value with
    | .error e => .error ("error unwrapping: " ++ e)
    | .ok message => Encoding.Decode w.encoding message resource

/-- `Wrapper.Unwrap`: `UnwrapRaw`, require a v3 resource, materialize absent
metadata, then stamp the storage-derived fields. -/
def Wrapper.Unwrap (reg : Registry) (w : Wrapper) : Except String Resource :=
  match Wrapper.UnwrapRaw reg w with
  | .error e => .error e
  | .ok r =>
    if r.isV3 then
      .ok { r with data := { r.data with
              meta := some (stampMeta w (r.data.meta.getD ObjectMeta.empty)) } }
    else .error "only v3 resources can be unwrapped"

/-- `Wrapper.UnwrapInto`: decompress and decode into the caller's target;
stamp only when the target is a v3 resource. Unlike `Unwrap` it does not
materialize absent metadata: dereferencing the nil metadata pointer is a Go
runtime fault, modelled as the distinguished error below. -/
def Wrapper.UnwrapInto (w : Wrapper) (p : Resource) : Except String Resource :=
  match Compression.Decompress w.compression w.value with
  | .error e => .error ("error unwrapping: " ++ e)
  | .ok message =>
    match Encoding.Decode w.encoding message p with
    | .error e => .error e
    | .ok r =>
      if r.isV3 then
        match r.data.meta with
        | none => .error "runtime fault: nil metadata dereference"
        | some meta =>
          .ok { r with data := { r.data with meta := some (stampMetaInto w meta) } }
      else .ok r

/-- Insert the reserved etag annotation the way `Unwrap` does; used to relate
`Unwrap` and `UnwrapInto`. -/
def addETag (w : Wrapper) (r : Resource) : Resource :=
  let meta := r.data.meta.getD ObjectMeta.empty
  { r with data := { r.data with
      meta := some { meta with
        annotations := some (updateKV (meta.annotations.getD []) sensuETagKey w.etag) } } }

/-- The metadata a consumer observes on a resource: Go code reads
`GetMetadata()` and treats nil as the zero value. -/
def metaOf (r : Resource) : ObjectMeta := r.data.meta.getD ObjectMeta.empty

/-- Two optional label/annotation maps agree on every key outside the
reserved storage-metadata keys, treating an absent map as empty (the
"structural" map equality the round-trip property is stated with). -/
def mapsEqModReserved (a b : Option (List (String × String))) : Prop :=
  ∀ k, k ∉ reservedKeys → lookupKV (a.getD []) k = lookupKV (b.getD []) k

/-- Structural equality of two resources modulo the reserved
storage-metadata keys: same identity, same payload, and label/annotation
maps that agree outside the reserved keys. -/
def structEqModStorage (a b : Resource) : Prop :=
  (metaOf a).ns = (metaOf b).ns ∧ (metaOf a).name = (metaOf b).name ∧
  mapsEqModReserved (metaOf a).labels (metaOf b).labels ∧
  mapsEqModReserved (metaOf a).annotations (metaOf b).annotations ∧
  a.data.payload = b.data.payload

/-! ### Batch hydration: `List.UnwrapInto` (generic reflective path)

The generic path of `List.UnwrapInto` takes a pointer to a Go slice. We
model the common shape, a slice whose elements are pointers to a concrete
resource type: an element is `Option Resource` (`none` = nil pointer). A Go
slice has a length and a capacity; the elements between length and capacity
are hidden but preserved, which matters because the source grows the length
to the capacity (`v.SetLen(v.Cap())`). `GoSlice.data` is the visible part,
`GoSlice.extra` the hidden part between length and capacity. The special
case for `*[]corev3.Resource` and the reflective pointer/slice kind checks
are outside this model. -/

/-- A Go slice of pointers to a concrete resource type. -/
structure GoSlice where
  data : List (Option Resource)
  extra : List (Option Resource)
deriving DecidableEq, Repr

/-- `len(s)`. -/
def GoSlice.len (s : GoSlice) : Nat := s.data.length

/-- `cap(s)`. -/
def GoSlice.cap (s : GoSlice) : Nat := s.data.length + s.extra.length

/-- `reflect.MakeSlice(t, n, n)`: fresh slice of nil pointers. -/
def GoSlice.make (n : Nat) : GoSlice := ⟨List.replicate n none, []⟩

/-- The type-level description of the slice's element type, used when the
loop allocates a fresh element with `reflect.New`. -/
structure EltType where
  tm : TypeMeta
  isProto : Bool
  hasValidate : Bool
  isV3 : Bool
deriving DecidableEq, Repr

/-- The zero value `reflect.New(eltType)` produces: zero data, nil metadata. -/
def EltType.zero (t : EltType) : Resource :=
  ⟨t.tm, t.isProto, t.hasValidate, t.isV3, ⟨none, 0, none⟩⟩

/-- The resize prologue of the generic path: if the capacity is smaller than
the number of envelopes, replace the slice with a fresh one of that length;
otherwise extend the length to the capacity. -/
def resizeFor (l : List Wrapper) (s : GoSlice) : GoSlice :=
  if s.cap < l.length then GoSlice.make l.length
  else ⟨s.data ++ s.extra, []⟩

/-- One iteration of the hydration loop: take the element at the slot (or a
freshly allocated zero value when the slot holds a nil pointer) and unwrap
into it. -/
def hydrateAt (et : EltType) (w : Wrapper) (slot : Option Resource) :
    Except String Resource :=
  Wrapper.UnwrapInto w (slot.getD (EltType.zero et))

/-- The hydration loop of the generic path, from index `i`. -/
def hydrateLoop (et : EltType) :
    List Wrapper → Nat → GoSlice → Except String GoSlice
  | [], _, s => .ok s
  | w :: ws, i, s =>
    match hydrateAt et w ((s.data.get? i).getD none) with
    | .error e => .error e
    | .ok r => hydrateLoop et ws (i + 1) ⟨s.data.set i (some r), s.extra⟩

/-- `List.UnwrapInto`, generic path: an empty envelope list modifies nothing;
otherwise resize then hydrate each slot in order. -/
def listUnwrapInto (et : EltType) (l : List Wrapper) (s : GoSlice) :
    Except String GoSlice :=
  if l.length = 0 then .ok s
  else hydrateLoop et l 0 (resizeFor l s)

/-! ### Concrete fixtures used by witnesses and counterexamples -/

/-- A concrete valid resource: protobuf-capable, validatable, v3. -/
def sampleResource : Resource :=
  ⟨⟨"CheckConfig", "core/v2"⟩, true, true, true,
   ⟨some ⟨"default", "foo", some [("a", "b")], none⟩, 7, none⟩⟩

/-- The registered zero-value instance for `sampleResource`'s type. -/
def sampleZero : Resource :=
  ⟨⟨"CheckConfig", "core/v2"⟩, true, true, true, ⟨none, 0, none⟩⟩

/-- A registry holding exactly `sampleResource`'s type. -/
def sampleRegistry : Registry := [(⟨"CheckConfig", "core/v2"⟩, sampleZero)]

/-- A resource lacking the self-validation capability. -/
def rNoValidate : Resource :=
  ⟨⟨"Widget", "core/v2"⟩, true, false, true, ⟨none, 3, none⟩⟩

/-- A validatable resource whose `Validate()` reports an error. -/
def rInvalid : Resource :=
  ⟨⟨"CheckConfig", "core/v2"⟩, true, true, true,
   ⟨some ⟨"default", "", none, none⟩, 0, some "check name must not be empty"⟩⟩

/-- A resource that already carries the reserved deleted-at label in its own
data (as serialized), used to refute the "exactly when tombstoned" reading. -/
def rPreDeleted : Resource :=
  ⟨⟨"CheckConfig", "core/v2"⟩, true, true, true,
   ⟨some ⟨"default", "foo", some [(sensuDeletedAtKey, "boom")], none⟩, 7, none⟩⟩

/-- An envelope with a zero tombstone whose value decodes to `rPreDeleted`. -/
def wPreDeleted : Wrapper :=
  { typeMeta := ⟨"CheckConfig", "core/v2"⟩, encoding := 0, compression := 0
    value := .jsonEnc rPreDeleted, createdAt := 10, updatedAt := 20
    deletedAt := 0, etag := "cafe" }

/-- An envelope with a non-empty ETag whose value decodes to a resource with
present metadata, used against `UnwrapInto`. -/
def wWithETag : Wrapper :=
  { typeMeta := ⟨"CheckConfig", "core/v2"⟩, encoding := 0, compression := 0
    value := .jsonEnc sampleResource, createdAt := 10, updatedAt := 20
    deletedAt := 0, etag := "abc" }

/-- A slice element type that is not a v3 resource (hydration then skips
metadata stamping entirely). -/
def eltNonV3 : EltType := ⟨⟨"Check", "core/v2"⟩, false, false, false⟩

/-- An envelope hydrating cleanly into a fresh `eltNonV3` element. -/
def wForSlice : Wrapper :=
  { typeMeta := ⟨"Check", "core/v2"⟩, encoding := 0, compression := 0
    value := .jsonEnc rNoValidate, createdAt := 0, updatedAt := 0
    deletedAt := 0, etag := "" }

/-- A caller-supplied slice with length 2 and capacity 3. -/
def sliceLen2Cap3 : GoSlice := ⟨[none, none], [none]⟩

/-- A resource that is not protobuf-capable. -/
def rJSONOnly : Resource :=
  ⟨⟨"Gadget", "core/v2"⟩, false, true, true, ⟨none, 5, none⟩⟩

end SensuWrap

namespace PatchHandlers

/-- The error codes `actions.NewError` is called with in `PatchResource`. -/
inductive ErrCode where
  | InvalidArgument
  | NotFound
  | PreconditionFailed
  | InternalErr
deriving DecidableEq, Repr

/-- An `actions` error: a code plus a message. -/
structure ApidError where
  code : ErrCode
  msg : String
deriving DecidableEq, Repr

/-- The patcher selected from the Content-Type header; only merge-patch can
be constructed. `body` abstracts the raw patch bytes. -/
inductive Patcher where
  | merge (body : Nat)
deriving DecidableEq, Repr

def mergePatchContentType : String := "application/merge-patch+json"

def jsonPatchContentType : String := "application/json-patch+json"

/-- The Content-Type switch of `PatchResource`: merge-patch or an absent
header selects the merge patcher; json-patch is recognized but rejected;
anything else is an invalid Content-Type. -/
def selectPatcher (contentType : String) (body : Nat) : Except ApidError Patcher :=
  if contentType = mergePatchContentType ∨ contentType = "" then
    .ok (.merge body)
  else if contentType = jsonPatchContentType then
    .error ⟨.InvalidArgument,
      "JSON Patch is not supported yet. Allowed values: " ++ mergePatchContentType⟩
  else
    .error ⟨.InvalidArgument,
      "invalid Content-Type header: " ++ contentType ++ ".  Allowed values: "
        ++ mergePatchContentType⟩

/-- The result of `json.Unmarshal`-ing the request body into the anonymous
`body` struct of `validatePatch`: either the body is not valid JSON, or it
parsed and its `metadata` field is the given optional metadata. -/
inductive PatchDoc where
  | malformed
  | parsed (metadata : Option SensuWrap.ObjectMeta)
deriving DecidableEq, Repr

/-- `validatePatch`: malformed JSON fails; an absent metadata block passes;
a non-empty namespace or name differing from the route-supplied one fails. -/
def validatePatch (data : PatchDoc) (routeNamespace routeName : String) :
    Except String Unit :=
  match data with
  | .malformed => .error "invalid character: json unmarshal error"
  | .parsed none => .ok ()
  | .parsed (some m) =>
    if m.ns ≠ "" ∧ m.ns ≠ routeNamespace then
      .error ("the namespace of the resource (" ++ m.ns
        ++ ") does not match the namespace in the URI (" ++ routeNamespace ++ ")")
    else if m.name ≠ "" ∧ m.name ≠ routeName then
      .error ("the name of the resource (" ++ m.name
        ++ ") does not match the name in the URI (" ++ routeName ++ ")")
    else .ok ()

/-- The identity-validation step of `PatchResource`: a `validatePatch`
failure is wrapped in an `InvalidArgument` error. -/
def patchValidateIdentity (data : PatchDoc) (routeNamespace routeName : String) :
    Except ApidError Unit :=
  match validatePatch data routeNamespace routeName with
  | .error e => .error ⟨.InvalidArgument, e⟩
  | .ok _ => .ok ()

end PatchHandlers

/-! ## Helper lemmas -/

namespace SensuWrap

theorem lookupKV_updateKV_self (m : List (String × String)) (k v : String) :
    lookupKV (updateKV m k v) k = some v := by
  induction m with
  | nil => simp [updateKV, lookupKV]
  | cons p rest ih =>
    obtain ⟨k2, v2⟩ := p
    by_cases h : k2 = k
    · simp [updateKV, h, lookupKV]
    · simp [updateKV, h, lookupKV, ih]

theorem lookupKV_updateKV_ne (m : List (String × String)) (k v k2 : String)
    (h : k2 ≠ k) : lookupKV (updateKV m k v) k2 = lookupKV m k2 := by
  have hk : k ≠ k2 := fun h2 => h h2.symm
  induction m with
  | nil => simp only [updateKV, lookupKV, if_neg hk]
  | cons p rest ih =>
    obtain ⟨k3, v3⟩ := p
    by_cases h3 : k3 = k
    · subst h3
      simp only [updateKV, if_pos rfl, lookupKV, if_neg hk]
    · simp only [updateKV, if_neg h3, lookupKV]
      by_cases h4 : k3 = k2
      · simp only [if_pos h4]
      · simp only [if_neg h4, ih]

theorem stampMeta_ns (w : Wrapper) (m : ObjectMeta) :
    (stampMeta w m).ns = m.ns := by
  simp [stampMeta]

theorem stampMeta_name (w : Wrapper) (m : ObjectMeta) :
    (stampMeta w m).name = m.name := by
  simp [stampMeta]

theorem stampMeta_labels_mod_reserved (w : Wrapper) (m : ObjectMeta) :
    mapsEqModReserved (stampMeta w m).labels m.labels := by
  intro k hk
  simp only [reservedKeys, List.mem_cons, List.not_mem_nil, or_false, not_or] at hk
  obtain ⟨hc, hu, hd, _⟩ := hk
  simp only [stampMeta]
  by_cases hz : w.deletedAt ≠ 0
  · simp only [if_pos hz, Option.getD_some,
      lookupKV_updateKV_ne _ _ _ _ hd, lookupKV_updateKV_ne _ _ _ _ hu,
      lookupKV_updateKV_ne _ _ _ _ hc]
  · simp only [if_neg hz, Option.getD_some,
      lookupKV_updateKV_ne _ _ _ _ hu, lookupKV_updateKV_ne _ _ _ _ hc]

theorem stampMeta_annots_mod_reserved (w : Wrapper) (m : ObjectMeta) :
    mapsEqModReserved (stampMeta w m).annotations m.annotations := by
  intro k hk
  simp only [reservedKeys, List.mem_cons, List.not_mem_nil, or_false, not_or] at hk
  obtain ⟨_, _, _, he⟩ := hk
  simp only [stampMeta, Option.getD_some, lookupKV_updateKV_ne _ _ _ _ he]

/-- The shape `Wrapper.Unwrap` returns on success satisfies structural
equality modulo the reserved keys with the resource recorded in the bytes. -/
theorem structEq_of_stamped (w : Wrapper) (x r : Resource)
    (hx : x.data = { r.data with
      meta := some (stampMeta w (r.data.meta.getD ObjectMeta.empty)) }) :
    structEqModStorage x r := by
  have hmx : metaOf x = stampMeta w (metaOf r) := by
    simp [metaOf, hx]
  refine ⟨?_, ?_, ?_, ?_, ?_⟩
  · rw [hmx, stampMeta_ns]
  · rw [hmx, stampMeta_name]
  · rw [hmx]; exact stampMeta_labels_mod_reserved w (metaOf r)
  · rw [hmx]; exact stampMeta_annots_mod_reserved w (metaOf r)
  · simp [hx]

end SensuWrap

/-! ## Claims -/

namespace SensuWrap

/-- Claim C3: wrapping a resource without the self-validation capability
always fails with the `ValidationError` `ErrValidateMethodMissing`,
regardless of its content or of the options; wrapping a resource whose
`Validate()` reports an error fails with exactly that error — validation is
never silently skipped. -/
theorem claim_C3_validation_gate (r : Resource) (opts : List WrapOption) :
    (r.hasValidate = false → wrap r opts = .error ErrValidateMethodMissing) ∧
    (∀ e, r.hasValidate = true → r.data.validateErr = some e →
      wrap r opts = .error e) := by
  constructor
  · intro h
    simp [wrap, h]
  · intro e h he
    simp [wrap, h, he]

theorem claim_C3_validation_gate_witness :
    (rNoValidate.hasValidate = false ∧
      wrap rNoValidate [] = .error ErrValidateMethodMissing) ∧
    (rInvalid.hasValidate = true ∧
      rInvalid.data.validateErr = some "check name must not be empty" ∧
      wrap rInvalid [] = .error "check name must not be empty") :=
  ⟨⟨rfl, (claim_C3_validation_gate rNoValidate []).1 rfl⟩,
   ⟨rfl, rfl, (claim_C3_validation_gate rInvalid []).2 _ rfl rfl⟩⟩

/-- Claim C10: `Compress` is total (it returns bytes, never an error): the
`none` tag and any unrecognized tag return the input unchanged, and only the
`snappy` tag transforms the bytes; `Decompress` accepts the `none` tag as
the identity but fails with an invalid-compression error on any tag outside
the defined enum. -/
theorem claim_C10_compression_totality (c : Compression) (m : Bytes) :
    (c ≠ Compression_snappy → Compression.Compress c m = m) ∧
    Compression.Compress Compression_snappy m = Bytes.snappyFrame m ∧
    Compression.Decompress Compression_none m = .ok m ∧
    (c ≠ Compression_none → c ≠ Compression_snappy →
      Compression.Decompress c m =
        .error ("invalid compression: " ++ Compression.str c)) := by
  refine ⟨?_, ?_, ?_, ?_⟩
  · intro h
    by_cases h0 : c = Compression_none
    · simp [Compression.Compress, h0, Compression_none]
    · simp only [Compression.Compress, Compression_none, Compression_snappy] at *
      rw [if_neg h0, if_neg h]
  · simp [Compression.Compress, Compression_snappy, Compression_none]
  · simp [Compression.Decompress, Compression_none]
  · intro h0 h1
    simp only [Compression.Decompress, Compression_none, Compression_snappy] at *
    rw [if_neg h0, if_neg h1]

theorem claim_C10_compression_totality_witness :
    ((7 : Compression) ≠ Compression_snappy ∧
      Compression.Compress 7 (.raw 4) = .raw 4) ∧
    ((7 : Compression) ≠ Compression_none ∧
      Compression.Decompress 7 (.raw 4) =
        .error ("invalid compression: " ++ Compression.str 7)) :=
  ⟨⟨by decide, (claim_C10_compression_totality 7 (.raw 4)).1 (by decide)⟩,
   ⟨by decide, (claim_C10_compression_totality 7 (.raw 4)).2.2.2 (by decide) (by decide)⟩⟩

/-- Claim C9: `List.UnwrapInto` with an empty envelope list succeeds and
returns the target collection exactly as given — no resize, no element
touched. -/
theorem claim_C9_empty_batch_noop (et : EltType) (s : GoSlice) :
    listUnwrapInto et [] s = .ok s := rfl

/-- Claim C7: the encoding defaults to protobuf when the resource supports
`proto.Message` and to json otherwise, the default compression is snappy;
the defaults are applied before caller options, so an explicit `EncodeJSON`
or `CompressNone` overrides them; and an explicit `EncodeProtobuf` on a
non-protobuf resource fails instead of falling back to json. -/
theorem claim_C7_encoding_defaults (r : Resource) :
    ((wrapWithoutValidation r []).map Wrapper.encoding =
      .ok (if r.isProto then Encoding_protobuf else Encoding_json)) ∧
    ((wrapWithoutValidation r []).map Wrapper.compression = .ok Compression_snappy) ∧
    ((wrapWithoutValidation r [EncodeJSON]).map Wrapper.encoding = .ok Encoding_json) ∧
    ((wrapWithoutValidation r [CompressNone]).map Wrapper.compression =
      .ok Compression_none) ∧
    (r.isProto = false →
      wrapWithoutValidation r [EncodeProtobuf] =
        .error "protobuf encoding requested, but value is not a proto.Message") := by
  by_cases hp : r.isProto <;>
    [skip; simp only [Bool.not_eq_true] at hp] <;>
    refine ⟨?_, ?_, ?_, ?_, ?_⟩ <;>
      simp [wrapWithoutValidation, applyOpts, EncodeDefault, CompressDefault,
        CompressSnappy, EncodeJSON, CompressNone, EncodeProtobuf, initWrapper,
        Encoding.Encode, Encoding_json, Encoding_protobuf, Compression_snappy,
        Compression_none, Compression.Compress, Except.map, hp]

theorem claim_C7_encoding_defaults_witness :
    (rJSONOnly.isProto = false ∧
      wrapWithoutValidation rJSONOnly [EncodeProtobuf] =
        .error "protobuf encoding requested, but value is not a proto.Message") ∧
    ((wrapWithoutValidation rJSONOnly []).map Wrapper.encoding =
      .ok (if rJSONOnly.isProto then Encoding_protobuf else Encoding_json)) :=
  ⟨⟨rfl, (claim_C7_encoding_defaults rJSONOnly).2.2.2.2 rfl⟩,
   (claim_C7_encoding_defaults rJSONOnly).1⟩

end SensuWrap

namespace PatchHandlers

/-- Claim C2: for a patch body that parses as JSON, setting
`metadata.namespace` or `metadata.name` to a non-empty value different from
the route-supplied namespace or name fails identity validation with an
`InvalidArgument` error; omitting the metadata block, or supplying empty or
matching identity fields, passes identity validation. -/
theorem claim_C2_identity_validation (meta : Option SensuWrap.ObjectMeta)
    (rns rname : String) :
    (∀ m, meta = some m →
      ((m.ns ≠ "" ∧ m.ns ≠ rns) ∨ (m.name ≠ "" ∧ m.name ≠ rname)) →
      ∃ e, patchValidateIdentity (.parsed meta) rns rname = .error e ∧
        e.code = .InvalidArgument) ∧
    (meta = none → patchValidateIdentity (.parsed meta) rns rname = .ok ()) ∧
    (∀ m, meta = some m → (m.ns = "" ∨ m.ns = rns) →
      (m.name = "" ∨ m.name = rname) →
      patchValidateIdentity (.parsed meta) rns rname = .ok ()) := by
  refine ⟨?_, ?_, ?_⟩
  · rintro m rfl hbad
    by_cases hns : m.ns ≠ "" ∧ m.ns ≠ rns
    · refine ⟨⟨.InvalidArgument,
        "the namespace of the resource (" ++ m.ns
          ++ ") does not match the namespace in the URI (" ++ rns ++ ")"⟩, ?_, rfl⟩
      simp [patchValidateIdentity, validatePatch, if_pos hns]
    · have hname : m.name ≠ "" ∧ m.name ≠ rname := hbad.resolve_left hns
      refine ⟨⟨.InvalidArgument,
        "the name of the resource (" ++ m.name
          ++ ") does not match the name in the URI (" ++ rname ++ ")"⟩, ?_, rfl⟩
      simp [patchValidateIdentity, validatePatch, if_neg hns, if_pos hname]
  · rintro rfl
    simp [patchValidateIdentity, validatePatch]
  · rintro m rfl hns hname
    have h1 : ¬(m.ns ≠ "" ∧ m.ns ≠ rns) := by
      rcases hns with h | h <;> simp [h]
    have h2 : ¬(m.name ≠ "" ∧ m.name ≠ rname) := by
      rcases hname with h | h <;> simp [h]
    simp [patchValidateIdentity, validatePatch, if_neg h1, if_neg h2]

theorem claim_C2_identity_validation_witness :
    (some (⟨"other", "", none, none⟩ : SensuWrap.ObjectMeta) =
        some ⟨"other", "", none, none⟩ ∧
      ∃ e, patchValidateIdentity (.parsed (some ⟨"other", "", none, none⟩))
          "default" "foo" = .error e ∧ e.code = .InvalidArgument) ∧
    patchValidateIdentity (.parsed none) "default" "foo" = .ok () ∧
    patchValidateIdentity (.parsed (some ⟨"", "foo", none, none⟩))
      "default" "foo" = .ok () :=
  ⟨⟨rfl, (claim_C2_identity_validation (some ⟨"other", "", none, none⟩)
      "default" "foo").1 _ rfl (Or.inl ⟨by decide, by decide⟩)⟩,
   (claim_C2_identity_validation none "default" "foo").2.1 rfl,
   (claim_C2_identity_validation (some ⟨"", "foo", none, none⟩)
      "default" "foo").2.2 _ rfl (Or.inl rfl) (Or.inr rfl)⟩

/-- Claim C8: a Content-Type of `application/merge-patch+json` or an absent
header selects the merge patcher; `application/json-patch+json` is rejected
with an `InvalidArgument` error saying it is not supported yet; every other
Content-Type is rejected with `InvalidArgument`. -/
theorem claim_C8_content_type (ct : String) (body : Nat) :
    ((ct = mergePatchContentType ∨ ct = "") →
      selectPatcher ct body = .ok (.merge body)) ∧
    (ct = jsonPatchContentType →
      selectPatcher ct body = .error ⟨.InvalidArgument,
        "JSON Patch is not supported yet. Allowed values: "
          ++ mergePatchContentType⟩) ∧
    (ct ≠ mergePatchContentType → ct ≠ "" → ct ≠ jsonPatchContentType →
      ∃ e, selectPatcher ct body = .error e ∧ e.code = .InvalidArgument) := by
  refine ⟨?_, ?_, ?_⟩
  · intro h
    simp [selectPatcher, h]
  · rintro rfl
    simp [selectPatcher, jsonPatchContentType, mergePatchContentType]
  · intro h1 h2 h3
    refine ⟨⟨.InvalidArgument,
      "invalid Content-Type header: " ++ ct ++ ".  Allowed values: "
        ++ mergePatchContentType⟩, ?_, rfl⟩
    simp [selectPatcher, h1, h2, h3]

theorem claim_C8_content_type_witness :
    selectPatcher "" 9 = .ok (.merge 9) ∧
    selectPatcher jsonPatchContentType 9 = .error ⟨.InvalidArgument,
      "JSON Patch is not supported yet. Allowed values: "
        ++ mergePatchContentType⟩ ∧
    ("text/plain" ≠ mergePatchContentType ∧
      ∃ e, selectPatcher "text/plain" 9 = .error e ∧
        e.code = .InvalidArgument) :=
  ⟨(claim_C8_content_type "" 9).1 (Or.inr rfl),
   (claim_C8_content_type jsonPatchContentType 9).2.1 rfl,
   by decide,
   (claim_C8_content_type "text/plain" 9).2.2 (by decide) (by decide) (by decide)⟩

end PatchHandlers

namespace SensuWrap

/-- A wrapper literal as `wrapWithoutValidation` constructs it (lifecycle
fields are zero: they are stamped by the storage engine, not by wrapping). -/
def mkWrapper (tm : TypeMeta) (e : Encoding) (c : Compression) (v : Bytes) : Wrapper :=
  { typeMeta := tm, encoding := e, compression := c, value := v
    createdAt := 0, updatedAt := 0, deletedAt := 0, etag := "" }

theorem unwrap_jsonEnc (reg : Registry) (w : Wrapper) (t r : Resource)
    (hres : resolve reg w.typeMeta = .ok t) (hv3 : t.isV3 = true)
    (henc : w.encoding = Encoding_json)
    (hval : Compression.Decompress w.compression w.value = .ok (.jsonEnc r)) :
    Wrapper.Unwrap reg w = .ok { t with data := { r.data with
      meta := some (stampMeta w (r.data.meta.getD ObjectMeta.empty)) } } := by
  simp [Wrapper.Unwrap, Wrapper.UnwrapRaw, hres, hval, henc, Encoding.Decode,
    Encoding_json, Encoding_protobuf, hydrateInto, hv3]

theorem unwrap_protoEnc (reg : Registry) (w : Wrapper) (t r : Resource)
    (hres : resolve reg w.typeMeta = .ok t) (hv3 : t.isV3 = true)
    (htp : t.isProto = true)
    (henc : w.encoding = Encoding_protobuf)
    (hval : Compression.Decompress w.compression w.value = .ok (.protoEnc r)) :
    Wrapper.Unwrap reg w = .ok { t with data := { r.data with
      meta := some (stampMeta w (r.data.meta.getD ObjectMeta.empty)) } } := by
  simp [Wrapper.Unwrap, Wrapper.UnwrapRaw, hres, hval, henc, Encoding.Decode,
    Encoding_json, Encoding_protobuf, hydrateInto, hv3, htp]

/-- Claim C1: for every valid resource that supports self-validation and
validates successfully, and for every supported (encoding, compression)
pair — protobuf encoding being supported only when the resource and the
registered hydration target are protobuf-capable — unwrapping the envelope
produced by wrapping the resource succeeds and yields a resource
structurally equal to the original except for the reserved storage-metadata
label/annotation keys injected during hydration. -/
theorem claim_C1_round_trip (reg : Registry) (r t : Resource)
    (eo co : WrapOption)
    (hv : r.hasValidate = true) (hok : r.data.validateErr = none)
    (heo : eo = EncodeJSON ∨
      (eo = EncodeProtobuf ∧ r.isProto = true ∧ t.isProto = true))
    (hco : co = CompressNone ∨ co = CompressSnappy)
    (hres : resolve reg r.tm = .ok t) (hv3 : t.isV3 = true) :
    ∃ w u, wrap r [eo, co] = .ok w ∧ Wrapper.Unwrap reg w = .ok u ∧
      structEqModStorage u r := by
  rcases heo with rfl | ⟨rfl, hrp, htp⟩ <;> rcases hco with rfl | rfl
  · have hw : wrap r [EncodeJSON, CompressNone] =
        .ok (mkWrapper r.tm Encoding_json Compression_none (.jsonEnc r)) := by
      simp [wrap, hv, hok, wrapWithoutValidation, applyOpts, EncodeDefault,
        CompressDefault, CompressSnappy, EncodeJSON, CompressNone, initWrapper,
        Encoding.Encode, Encoding_json, Encoding_protobuf, Compression_none,
        Compression_snappy, Compression.Compress, mkWrapper]
    have hu := unwrap_jsonEnc reg
      (mkWrapper r.tm Encoding_json Compression_none (.jsonEnc r))
      t r (by simpa [mkWrapper] using hres) hv3 rfl
      (by simp [Compression.Decompress, Compression_none, mkWrapper])
    exact ⟨_, _, hw, hu, structEq_of_stamped
      (mkWrapper r.tm Encoding_json Compression_none (.jsonEnc r)) _ r (by simp)⟩
  · have hw : wrap r [EncodeJSON, CompressSnappy] =
        .ok (mkWrapper r.tm Encoding_json Compression_snappy
          (.snappyFrame (.jsonEnc r))) := by
      simp [wrap, hv, hok, wrapWithoutValidation, applyOpts, EncodeDefault,
        CompressDefault, CompressSnappy, EncodeJSON, CompressNone, initWrapper,
        Encoding.Encode, Encoding_json, Encoding_protobuf, Compression_none,
        Compression_snappy, Compression.Compress, mkWrapper]
    have hu := unwrap_jsonEnc reg
      (mkWrapper r.tm Encoding_json Compression_snappy (.snappyFrame (.jsonEnc r)))
      t r (by simpa [mkWrapper] using hres) hv3 rfl
      (by simp [Compression.Decompress, Compression_none, Compression_snappy,
        mkWrapper])
    exact ⟨_, _, hw, hu, structEq_of_stamped
      (mkWrapper r.tm Encoding_json Compression_snappy
        (.snappyFrame (.jsonEnc r))) _ r (by simp)⟩
  · have hw : wrap r [EncodeProtobuf, CompressNone] =
        .ok (mkWrapper r.tm Encoding_protobuf Compression_none (.protoEnc r)) := by
      simp [wrap, hv, hok, wrapWithoutValidation, applyOpts, EncodeDefault,
        CompressDefault, CompressSnappy, EncodeProtobuf, CompressNone, initWrapper,
        Encoding.Encode, Encoding_json, Encoding_protobuf, Compression_none,
        Compression_snappy, Compression.Compress, mkWrapper, hrp]
    have hu := unwrap_protoEnc reg
      (mkWrapper r.tm Encoding_protobuf Compression_none (.protoEnc r))
      t r (by simpa [mkWrapper] using hres) hv3 htp rfl
      (by simp [Compression.Decompress, Compression_none, mkWrapper])
    exact ⟨_, _, hw, hu, structEq_of_stamped
      (mkWrapper r.tm Encoding_protobuf Compression_none (.protoEnc r)) _ r (by simp)⟩
  · have hw : wrap r [EncodeProtobuf, CompressSnappy] =
        .ok (mkWrapper r.tm Encoding_protobuf Compression_snappy
          (.snappyFrame (.protoEnc r))) := by
      simp [wrap, hv, hok, wrapWithoutValidation, applyOpts, EncodeDefault,
        CompressDefault, CompressSnappy, EncodeProtobuf, CompressNone, initWrapper,
        Encoding.Encode, Encoding_json, Encoding_protobuf, Compression_none,
        Compression_snappy, Compression.Compress, mkWrapper, hrp]
    have hu := unwrap_protoEnc reg
      (mkWrapper r.tm Encoding_protobuf Compression_snappy
        (.snappyFrame (.protoEnc r)))
      t r (by simpa [mkWrapper] using hres) hv3 htp rfl
      (by simp [Compression.Decompress, Compression_none, Compression_snappy,
        mkWrapper])
    exact ⟨_, _, hw, hu, structEq_of_stamped
      (mkWrapper r.tm Encoding_protobuf Compression_snappy
        (.snappyFrame (.protoEnc r))) _ r (by simp)⟩

theorem claim_C1_round_trip_witness :
    sampleResource.hasValidate = true ∧
    resolve sampleRegistry sampleResource.tm = .ok sampleZero ∧
    sampleZero.isV3 = true ∧
    ∃ w u, wrap sampleResource [EncodeProtobuf, CompressSnappy] = .ok w ∧
      Wrapper.Unwrap sampleRegistry w = .ok u ∧
      structEqModStorage u sampleResource :=
  ⟨rfl, rfl, rfl,
   claim_C1_round_trip sampleRegistry sampleResource sampleZero
     EncodeProtobuf CompressSnappy rfl rfl
     (Or.inr ⟨rfl, rfl, rfl⟩) (Or.inr rfl) rfl rfl⟩

end SensuWrap

namespace SensuWrap

/-- The stamping `Unwrap` performs equals the stamping `UnwrapInto` performs
followed by inserting the reserved etag annotation. -/
theorem stampMeta_eq_addETag_stampMetaInto (w : Wrapper) (m : ObjectMeta) :
    stampMeta w m = { stampMetaInto w m with
      annotations := some (updateKV (m.annotations.getD []) sensuETagKey w.etag) } := by
  simp [stampMeta, stampMetaInto]

/-- Claim C4, corrected: for an envelope whose decoded value carries present
metadata and a v3-capable target (the instance type resolution would have
produced), `UnwrapInto` behaves exactly like `Unwrap` minus type resolution
— it decompresses, decodes into the target, materializes absent
labels/annotations and injects the created-at and updated-at labels and the
deleted-at label when tombstoned — but it does not inject the reserved etag
annotation: `Unwrap`'s result is exactly `UnwrapInto`'s result plus that
annotation. (It also does not materialize absent metadata, hence the
present-metadata hypothesis.) -/
theorem claim_C4_unwrap_into_refines_unwrap (reg : Registry) (w : Wrapper)
    (p raw : Resource) (m : ObjectMeta)
    (hres : resolve reg w.typeMeta = .ok p)
    (hraw : Wrapper.UnwrapRaw reg w = .ok raw)
    (hm : raw.data.meta = some m)
    (hv3 : raw.isV3 = true) :
    ∃ u, Wrapper.UnwrapInto w p = .ok u ∧
      Wrapper.Unwrap reg w = .ok (addETag w u) := by
  rw [Wrapper.UnwrapRaw, hres] at hraw
  cases hd : Compression.Decompress w.compression w.value with
  | error e => rw [hd] at hraw; simp at hraw
  | ok message =>
    rw [hd] at hraw
    simp only at hraw
    refine ⟨{ raw with data := { raw.data with
      meta := some (stampMetaInto w m) } }, ?_, ?_⟩
    · rw [Wrapper.UnwrapInto, hd]
      simp only [hraw, hv3, if_true, hm]
    · rw [Wrapper.Unwrap, Wrapper.UnwrapRaw, hres, hd]
      simp only [hraw, hv3, if_true, hm, addETag,
        stampMeta_eq_addETag_stampMetaInto]
      simp [stampMetaInto]

theorem claim_C4_unwrap_into_refines_unwrap_witness :
    resolve sampleRegistry wWithETag.typeMeta = .ok sampleZero ∧
    (∃ raw, Wrapper.UnwrapRaw sampleRegistry wWithETag = .ok raw ∧
      raw.data.meta = some ⟨"default", "foo", some [("a", "b")], none⟩ ∧
      raw.isV3 = true) ∧
    ∃ u, Wrapper.UnwrapInto wWithETag sampleZero = .ok u ∧
      Wrapper.Unwrap sampleRegistry wWithETag = .ok (addETag wWithETag u) :=
  ⟨rfl, ⟨_, rfl, rfl, rfl⟩,
   claim_C4_unwrap_into_refines_unwrap sampleRegistry wWithETag sampleZero
     _ ⟨"default", "foo", some [("a", "b")], none⟩ rfl rfl rfl rfl⟩

/-- Claim C4, counterexample to the claim as stated: at this concrete
envelope (whose ETag is the non-empty "abc") and v3 target, `UnwrapInto`
succeeds but the reserved etag annotation is absent from the result, so
`UnwrapInto` does not inject the same reserved keys as `Unwrap`. -/
theorem claim_C4_counterexample :
    wWithETag.etag = "abc" ∧
    ∃ u, Wrapper.UnwrapInto wWithETag sampleZero = .ok u ∧
      lookupKV ((metaOf u).annotations.getD []) sensuETagKey = none :=
  ⟨rfl, _, rfl, rfl⟩

end SensuWrap

namespace SensuWrap

theorem key_created_ne_updated : sensuCreatedAtKey ≠ sensuUpdatedAtKey := by decide

theorem key_created_ne_deleted : sensuCreatedAtKey ≠ sensuDeletedAtKey := by decide

theorem key_updated_ne_deleted : sensuUpdatedAtKey ≠ sensuDeletedAtKey := by decide

/-- Claim C6, corrected: every resource successfully returned by `Unwrap`
has present metadata with non-nil labels and annotations; the created-at
and updated-at timestamps are injected in textual form under the reserved
label keys and the ETag under the reserved annotation key; the deleted-at
label is injected whenever the envelope's tombstone is non-zero, but when
the tombstone is zero no deleted-at label is added — it is present exactly
as it occurs in the decoded value's own labels (so it is not absent
"exactly when" the tombstone is zero). -/
theorem claim_C6_hydration_invariants (reg : Registry) (w : Wrapper)
    (u : Resource) (hok : Wrapper.Unwrap reg w = .ok u) :
    ∃ m labels annots,
      u.data.meta = some m ∧ m.labels = some labels ∧
      m.annotations = some annots ∧
      lookupKV labels sensuCreatedAtKey = some (timeText w.createdAt) ∧
      lookupKV labels sensuUpdatedAtKey = some (timeText w.updatedAt) ∧
      lookupKV annots sensuETagKey = some w.etag ∧
      (w.deletedAt ≠ 0 →
        lookupKV labels sensuDeletedAtKey = some (timeText w.deletedAt)) ∧
      (w.deletedAt = 0 → ∀ raw, Wrapper.UnwrapRaw reg w = .ok raw →
        lookupKV labels sensuDeletedAtKey =
          lookupKV ((raw.data.meta.getD ObjectMeta.empty).labels.getD [])
            sensuDeletedAtKey) := by
  cases hraw : Wrapper.UnwrapRaw reg w with
  | error e => rw [Wrapper.Unwrap, hraw] at hok; simp at hok
  | ok raw =>
    rw [Wrapper.Unwrap, hraw] at hok
    by_cases hv3 : raw.isV3
    · simp only [hv3, if_true, Except.ok.injEq] at hok
      subst hok
      by_cases hz : w.deletedAt = 0
      · refine ⟨stampMeta w (raw.data.meta.getD ObjectMeta.empty),
          updateKV (updateKV ((raw.data.meta.getD ObjectMeta.empty).labels.getD [])
            sensuCreatedAtKey (timeText w.createdAt))
            sensuUpdatedAtKey (timeText w.updatedAt),
          updateKV ((raw.data.meta.getD ObjectMeta.empty).annotations.getD [])
            sensuETagKey w.etag,
          rfl, (by simp [stampMeta, hz]), (by simp [stampMeta]),
          ?_, ?_, ?_, ?_, ?_⟩
        · rw [lookupKV_updateKV_ne _ _ _ _ key_created_ne_updated,
            lookupKV_updateKV_self]
        · rw [lookupKV_updateKV_self]
        · rw [lookupKV_updateKV_self]
        · intro h; exact absurd hz h
        · intro _ raw2 hraw2
          have hr2 : raw2 = raw := by
            cases hraw2
            rfl
          subst hr2
          rw [lookupKV_updateKV_ne _ _ _ _ (Ne.symm key_updated_ne_deleted),
            lookupKV_updateKV_ne _ _ _ _ (Ne.symm key_created_ne_deleted)]
      · refine ⟨stampMeta w (raw.data.meta.getD ObjectMeta.empty),
          updateKV (updateKV (updateKV
              ((raw.data.meta.getD ObjectMeta.empty).labels.getD [])
              sensuCreatedAtKey (timeText w.createdAt))
            sensuUpdatedAtKey (timeText w.updatedAt))
            sensuDeletedAtKey (timeText w.deletedAt),
          updateKV ((raw.data.meta.getD ObjectMeta.empty).annotations.getD [])
            sensuETagKey w.etag,
          rfl, (by simp [stampMeta, hz]), (by simp [stampMeta]),
          ?_, ?_, ?_, ?_, ?_⟩
        · rw [lookupKV_updateKV_ne _ _ _ _ key_created_ne_deleted,
            lookupKV_updateKV_ne _ _ _ _ key_created_ne_updated,
            lookupKV_updateKV_self]
        · rw [lookupKV_updateKV_ne _ _ _ _ key_updated_ne_deleted,
            lookupKV_updateKV_self]
        · rw [lookupKV_updateKV_self]
        · intro _; rw [lookupKV_updateKV_self]
        · intro h; exact absurd h hz
    · simp [hv3] at hok

theorem claim_C6_hydration_invariants_witness :
    Wrapper.Unwrap sampleRegistry wWithETag =
      .ok { sampleZero with data := { sampleResource.data with
        meta := some (stampMeta wWithETag
          ⟨"default", "foo", some [("a", "b")], none⟩) } } ∧
    ∃ m labels annots,
      ({ sampleZero with data := { sampleResource.data with
        meta := some (stampMeta wWithETag
          ⟨"default", "foo", some [("a", "b")], none⟩) } } : Resource).data.meta =
            some m ∧
      m.labels = some labels ∧ m.annotations = some annots ∧
      lookupKV labels sensuCreatedAtKey = some (timeText wWithETag.createdAt) ∧
      lookupKV labels sensuUpdatedAtKey = some (timeText wWithETag.updatedAt) ∧
      lookupKV annots sensuETagKey = some wWithETag.etag ∧
      (wWithETag.deletedAt ≠ 0 →
        lookupKV labels sensuDeletedAtKey = some (timeText wWithETag.deletedAt)) ∧
      (wWithETag.deletedAt = 0 → ∀ raw,
        Wrapper.UnwrapRaw sampleRegistry wWithETag = .ok raw →
        lookupKV labels sensuDeletedAtKey =
          lookupKV ((raw.data.meta.getD ObjectMeta.empty).labels.getD [])
            sensuDeletedAtKey) :=
  ⟨rfl, claim_C6_hydration_invariants sampleRegistry wWithETag _ rfl⟩

/-- Claim C6, counterexample to the claim as stated: this envelope's
tombstone is zero, yet the resource `Unwrap` returns carries a deleted-at
label (pre-seeded in the decoded value), so the deleted-at label is not
present "exactly when" the tombstone is non-zero. -/
theorem claim_C6_counterexample :
    wPreDeleted.deletedAt = 0 ∧
    ∃ u, Wrapper.Unwrap sampleRegistry wPreDeleted = .ok u ∧
      lookupKV ((metaOf u).labels.getD []) sensuDeletedAtKey = some "boom" :=
  ⟨rfl, _, rfl, rfl⟩

end SensuWrap

namespace SensuWrap

theorem hydrateLoop_length (et : EltType) :
    ∀ (ws : List Wrapper) (i : Nat) (s s2 : GoSlice),
      hydrateLoop et ws i s = .ok s2 → s2.data.length = s.data.length := by
  intro ws
  induction ws with
  | nil =>
    intro i s s2 h
    simp only [hydrateLoop, Except.ok.injEq] at h
    rw [← h]
  | cons w ws ih =>
    intro i s s2 h
    simp only [hydrateLoop] at h
    cases hres : hydrateAt et w ((s.data.get? i).getD none) with
    | error e => rw [hres] at h; simp at h
    | ok r =>
      rw [hres] at h
      simp only at h
      have h2 := ih (i + 1) ⟨s.data.set i (some r), s.extra⟩ s2 h
      simpa [List.length_set] using h2

theorem hydrateLoop_preserve (et : EltType) :
    ∀ (ws : List Wrapper) (i : Nat) (s s2 : GoSlice),
      hydrateLoop et ws i s = .ok s2 →
      ∀ j, j < i → s2.data.get? j = s.data.get? j := by
  intro ws
  induction ws with
  | nil =>
    intro i s s2 h j _
    simp only [hydrateLoop, Except.ok.injEq] at h
    rw [← h]
  | cons w ws ih =>
    intro i s s2 h j hj
    simp only [hydrateLoop] at h
    cases hres : hydrateAt et w ((s.data.get? i).getD none) with
    | error e => rw [hres] at h; simp at h
    | ok r =>
      rw [hres] at h
      simp only at h
      have h2 := ih (i + 1) ⟨s.data.set i (some r), s.extra⟩ s2 h j
        (Nat.lt_succ_of_lt hj)
      rw [h2]
      exact List.get?_set_ne (some r) s.data (Nat.ne_of_gt hj)

theorem hydrateLoop_populated (et : EltType) :
    ∀ (ws : List Wrapper) (i : Nat) (s s2 : GoSlice),
      i + ws.length ≤ s.data.length →
      hydrateLoop et ws i s = .ok s2 →
      ∀ j, i ≤ j → j < i + ws.length → ∃ r, s2.data.get? j = some (some r) := by
  intro ws
  induction ws with
  | nil =>
    intro i s s2 _ _ j hij hji
    simp only [List.length_nil, Nat.add_zero] at hji
    omega
  | cons w ws ih =>
    intro i s s2 hlen h j hij hji
    simp only [hydrateLoop] at h
    cases hres : hydrateAt et w ((s.data.get? i).getD none) with
    | error e => rw [hres] at h; simp at h
    | ok r =>
      rw [hres] at h
      simp only at h
      simp only [List.length_cons] at hlen hji
      by_cases hj : j = i
      · subst hj
        have hpres := hydrateLoop_preserve et ws (j + 1)
          ⟨s.data.set j (some r), s.extra⟩ s2 h j (Nat.lt_succ_self j)
        refine ⟨r, ?_⟩
        rw [hpres]
        exact List.get?_set_eq_of_lt (some r) (by omega)
      · exact ih (i + 1) ⟨s.data.set i (some r), s.extra⟩ s2
          (by simp [List.length_set]; omega) h j (by omega) (by omega)

theorem resizeFor_length (l : List Wrapper) (s : GoSlice) :
    (resizeFor l s).data.length = max s.cap l.length := by
  rw [resizeFor]
  split_ifs with hc
  · simp only [GoSlice.make, List.length_replicate]
    omega
  · simp only [List.length_append, GoSlice.cap] at *
    omega

/-- Claim C5, corrected: for a non-empty sequence of envelopes, the generic
path of `List.UnwrapInto` leaves the target slice with length exactly
`max(original capacity, number of envelopes)` — not always exactly the
number of envelopes: the slice is replaced by a fresh one of that length
only when its capacity is smaller, and otherwise its length is grown to its
full capacity, which may exceed the number of envelopes. The first
`len(envelopes)` slots are populated in order, fresh elements being
allocated for absent (nil) slots before each per-element `UnwrapInto`. -/
theorem claim_C5_batch_resize (et : EltType) (l : List Wrapper) (s s2 : GoSlice)
    (hne : l ≠ []) (hok : listUnwrapInto et l s = .ok s2) :
    s2.len = max s.cap l.length ∧
    ∀ i, i < l.length → ∃ r, s2.data.get? i = some (some r) := by
  have hlen0 : l.length ≠ 0 := by
    intro h0
    exact hne (List.eq_nil_of_length_eq_zero h0)
  rw [listUnwrapInto, if_neg hlen0] at hok
  have h1 := hydrateLoop_length et l 0 _ s2 hok
  have hr := resizeFor_length l s
  refine ⟨?_, ?_⟩
  · rw [GoSlice.len, h1, hr]
  · intro i hi
    exact hydrateLoop_populated et l 0 _ s2 (by rw [hr]; omega) hok i
      (Nat.zero_le i) (by omega)

theorem claim_C5_batch_resize_witness :
    [wForSlice] ≠ [] ∧
    ∃ s2, listUnwrapInto eltNonV3 [wForSlice] sliceLen2Cap3 = .ok s2 ∧
      (s2.len = max sliceLen2Cap3.cap [wForSlice].length ∧
        ∀ i, i < [wForSlice].length → ∃ r, s2.data.get? i = some (some r)) :=
  ⟨by decide, _, rfl,
    claim_C5_batch_resize eltNonV3 [wForSlice] sliceLen2Cap3 _ (by decide) rfl⟩

/-- Claim C5, counterexample to the claim as stated: one envelope against a
target slice of length 2 and capacity 3 hydrates successfully but leaves
the target with length 3, not length 1 = number of envelopes. -/
theorem claim_C5_counterexample :
    ∃ s2, listUnwrapInto eltNonV3 [wForSlice] sliceLen2Cap3 = .ok s2 ∧
      sliceLen2Cap3.len = 2 ∧ s2.len = 3 ∧ s2.len ≠ [wForSlice].length :=
  ⟨_, rfl, rfl, rfl, by decide⟩

end SensuWrap
